import Mathlib

/-!
Verification of the IMU visualizer telemetry pipeline.

Shallow embedding of `src/main.c` (jtainer/imu-visualizer): the scanf-based
line decoder, the shared orientation cell written by the modem thread and
read by the render thread, the ingestion loop, the render-pose mapping and
the CLI/lifecycle behaviour of `main`.

Machine floats are modelled as exact rationals (`ℚ`); the values involved in
the decoded telemetry (integer angle casts and short decimal literals) are
exactly representable, and the render math is idealised over `ℝ`.
-/

namespace ImuVis

/-- C `isspace` on the characters scanf treats as whitespace. -/
def isSpaceC (c : Char) : Bool :=
  c = ' ' || c = '\t' || c = '\n' || c = '\x0b' || c = '\x0c' || c = '\r'

/-- Decimal digit test, C `isdigit`. -/
def isDigitC (c : Char) : Bool :=
  '0' ≤ c && c ≤ '9'

/-- Numeric value of a decimal digit character. -/
def digitVal (c : Char) : Nat := c.toNat - '0'.toNat

/-- Skip leading whitespace, as a scanf whitespace directive does. -/
def skipWs : List Char → List Char
  | [] => []
  | c :: cs => if isSpaceC c then skipWs cs else c :: cs

/-- Consume the maximal leading run of decimal digits. -/
def takeDigits : List Char → List Char × List Char
  | [] => ([], [])
  | c :: cs =>
    if isDigitC c then
      let (ds, r) := takeDigits cs
      (c :: ds, r)
    else ([], c :: cs)

/-- Value of a most-significant-first digit string. -/
def natOfDigits (ds : List Char) : Nat :=
  ds.foldl (fun a c => 10 * a + digitVal c) 0

/-- Match one literal (non-whitespace) format character, as scanf does. -/
def lit (c : Char) : List Char → Option (List Char)
  | [] => none
  | d :: ds => if d = c then some ds else none

/-- Match a run of literal format characters. -/
def litStr : List Char → List Char → Option (List Char)
  | [], s => some s
  | _ :: _, [] => none
  | p :: ps, c :: cs => if c = p then litStr ps cs else none

/-- scanf `%d`: skip whitespace, optional sign, at least one digit. -/
def scanInt (s : List Char) : Option (Int × List Char) :=
  match skipWs s with
  | [] => none
  | c :: rest =>
    if c = '-' then
      let (ds, r) := takeDigits rest
      if ds.isEmpty then none else some (-(natOfDigits ds : Int), r)
    else if c = '+' then
      let (ds, r) := takeDigits rest
      if ds.isEmpty then none else some ((natOfDigits ds : Int), r)
    else
      let (ds, r) := takeDigits (c :: rest)
      if ds.isEmpty then none else some ((natOfDigits ds : Int), r)

/-- A finite decimal as parsed from the wire: sign, the digit string with the
point removed, and the number of fraction digits.  This is the exact value a
`%f` conversion receives, kept unrounded. -/
structure DecFloat where
  neg : Bool
  mant : Nat
  fdigits : Nat
deriving DecidableEq

/-- Numeric value of a parsed decimal. -/
def DecFloat.val (d : DecFloat) : ℚ :=
  (if d.neg then -(d.mant : ℚ) else (d.mant : ℚ)) / 10 ^ d.fdigits

/-- Unsigned decimal float body: `digits`, `digits.digits`, `digits.` or
`.digits`, returning mantissa and fraction-digit count. -/
def scanUFloat (s : List Char) : Option ((Nat × Nat) × List Char) :=
  let (ip, r) := takeDigits s
  match r with
  | [] => if ip.isEmpty then none else some ((natOfDigits ip, 0), [])
  | c :: r2 =>
    if c = '.' then
      let (fp, r3) := takeDigits r2
      if ip.isEmpty && fp.isEmpty then none
      else some ((natOfDigits (ip ++ fp), fp.length), r3)
    else if ip.isEmpty then none
    else some ((natOfDigits ip, 0), c :: r2)

/-- scanf `%f`: skip whitespace, optional sign, decimal float body. -/
def scanFloat (s : List Char) : Option (DecFloat × List Char) :=
  match skipWs s with
  | [] => none
  | c :: rest =>
    if c = '-' then (scanUFloat rest).map (fun p => (⟨true, p.1.1, p.1.2⟩, p.2))
    else if c = '+' then (scanUFloat rest).map (fun p => (⟨false, p.1.1, p.1.2⟩, p.2))
    else (scanUFloat (c :: rest)).map (fun p => (⟨false, p.1.1, p.1.2⟩, p.2))

/-- The legacy angle-pair scan of `src/main.c` line 99:
`sscanf(buf, "Ang.x = %d\t\tAng.y = %d", &x, &y)`, succeeding exactly when
both conversions succeed (`conv == 2`). -/
def legacyScan (s : List Char) : Option (Int × Int) := do
  let s ← litStr ['A', 'n', 'g', '.', 'x'] s
  let s ← lit '=' (skipWs s)
  let (x, s) ← scanInt s
  let s ← litStr ['A', 'n', 'g', '.', 'y'] (skipWs s)
  let s ← lit '=' (skipWs s)
  let (y, _) ← scanInt s
  some (x, y)

/-- One `%f` field of the quaternion format after the first:
whitespace, the literal field name, whitespace, `=`, then `%f`. -/
def matchField (name : Char) (s : List Char) : Option (DecFloat × List Char) := do
  let s ← lit name (skipWs s)
  let s ← lit '=' (skipWs s)
  scanFloat s

/-- Modelled from the spec: the quaternion wire-format scan
`"w = %f x = %f y = %f z = %f"` (§4.1/§6).  The quaternion branch of the
decoder is absent from `src/main.c`, which retains only the legacy
angle-pair branch; this definition follows the pattern given in the spec with
whitespace-tolerant separators. -/
def quatScan (s : List Char) : Option (DecFloat × DecFloat × DecFloat × DecFloat) := do
  let s ← lit 'w' s
  let s ← lit '=' (skipWs s)
  let (w, s) ← scanFloat s
  let (x, s) ← matchField 'x' s
  let (y, s) ← matchField 'y' s
  let (z, _) ← matchField 'z' s
  some (w, x, y, z)

/-- A decoded orientation sample: quaternion form or legacy angle-pair form. -/
inductive Orientation where
  | quat (w x y z : DecFloat)
  | angles (x y : Int)
deriving DecidableEq

/-- Modelled from the spec: the unified decoder (§4.1) — attempt the
quaternion format first, fall back to the legacy angle-pair format, fail
otherwise.  Only the legacy branch exists in `src/main.c`. -/
def decode (s : List Char) : Option Orientation :=
  match quatScan s with
  | some (w, x, y, z) => some (.quat w x y z)
  | none =>
    match legacyScan s with
    | some (x, y) => some (.angles x y)
    | none => none

/-- Initial value of the shared cell: `volatile Vector2 orientation = { 0 };`
(`src/main.c` line 26), fields modelled as exact rationals. -/
def orientationInit : ℚ × ℚ := (0, 0)

/-- One iteration body of `modem_thread` after the read (`src/main.c`
lines 98–102): run the legacy sscanf and publish `((float)x, (float)y)`
when both fields converted, else leave the cell unchanged. -/
def modemStep (line : List Char) (st : ℚ × ℚ) : ℚ × ℚ :=
  match legacyScan line with
  | some (x, y) => ((x : ℚ), (y : ℚ))
  | none => st

/-- The `modem_thread` loop (`src/main.c` lines 95–103): at the head of each
iteration the stop flag is sampled; while it is clear, one read is consumed
and decoded.  `flag i` is the value of `modem_thread_stop` observed at the
head of iteration `i`; the result is the final cell value and the number of
reads consumed. -/
def modemLoop (flag : Nat → Bool) : List (List Char) → Nat → ℚ × ℚ → (ℚ × ℚ) × Nat
  | [], _, st => (st, 0)
  | l :: rest, i, st =>
    if flag i then (st, 0)
    else
      let (st1, n) := modemLoop flag rest (i + 1) (modemStep l st)
      (st1, n + 1)

/-- The actions of `main` from the start of the render loop onward
(`src/main.c` lines 79–88): run the render loop to completion, set
`modem_thread_stop`, join the modem thread, restore the termios settings,
close the descriptor. -/
inductive MainAction where
  | runRender
  | setStopFlag
  | joinModem
  | restoreTermios
  | closeFd
deriving DecidableEq, BEq

/-- The order in which `main` performs those actions. -/
def mainShutdownSeq : List MainAction :=
  [.runRender, .setStopFlag, .joinModem, .restoreTermios, .closeFd]

/-- `buflen` in `modem_thread` (`src/main.c` line 92): `buf` has valid
indices `0 … buflen - 1`. -/
def modemBuflen : Nat := 1024

/-- The results `read(modem_fd, buf, buflen)` can return (`src/main.c`
line 96): `-1` on error, otherwise a byte count between `0` and `buflen`. -/
def readResultPossible (res : Int) : Prop :=
  -1 ≤ res ∧ res ≤ (modemBuflen : Int)

/-- The NUL-terminator store `buf[res] = 0` (`src/main.c` line 97) lands on
a valid index of `buf`. -/
def nulWriteInBounds (res : Int) : Prop :=
  0 ≤ res ∧ res < (modemBuflen : Int)

instance (res : Int) : Decidable (readResultPossible res) := by
  unfold readResultPossible
  infer_instance

instance (res : Int) : Decidable (nulWriteInBounds res) := by
  unfold nulWriteInBounds
  infer_instance

/-- Field-granular steps on the shared `orientation` cell
(`src/main.c` line 26).  The struct store
`orientation = (Vector2){ (float)x, (float)y }` (line 101) is two unguarded
field stores, and a snapshot read of `orientation` by the render thread is
two unguarded field loads; no synchronization orders them. -/
inductive CellStep where
  | writeX (v : ℚ)
  | writeY (v : ℚ)
  | readX
  | readY
deriving DecidableEq

/-- Execute one step: the state is the cell contents together with the log
of values the reader has loaded so far. -/
def cellExec : (ℚ × ℚ) × List ℚ → CellStep → (ℚ × ℚ) × List ℚ
  | ((_, y), log), .writeX v => ((v, y), log)
  | ((x, _), log), .writeY v => ((x, v), log)
  | ((x, y), log), .readX => ((x, y), log ++ [x])
  | ((x, y), log), .readY => ((x, y), log ++ [y])

/-- Run a schedule from the initial cell value. -/
def cellRun (sched : List CellStep) : (ℚ × ℚ) × List ℚ :=
  sched.foldl cellExec (orientationInit, [])

/-- The two field stores performed by one publish. -/
def publishSteps (v : ℚ × ℚ) : List CellStep := [.writeX v.1, .writeY v.2]

/-- The two field loads performed by one snapshot. -/
def snapshotSteps : List CellStep := [.readX, .readY]

/-- `zs` is an interleaving of `xs` and `ys`: the program order of each thread is
preserved, the steps are merged arbitrarily. -/
def interleaving : List CellStep → List CellStep → List CellStep → Bool
  | xs, ys, [] => xs.isEmpty && ys.isEmpty
  | xs, ys, z :: zs =>
    (match xs with
     | x :: xs1 => decide (x = z) && interleaving xs1 ys zs
     | [] => false)
    ||
    (match ys with
     | y :: ys1 => decide (y = z) && interleaving xs ys1 zs
     | [] => false)

/-- A concrete schedule of two publishes and one snapshot in which the
two loads of the reader fall between the two field stores of the second
publish. -/
def tornSchedule : List CellStep :=
  [.writeX 1, .writeY 2, .writeX 3, .readX, .readY, .writeY 4]

/-- Outcome of the argument/open checks at the top of `main`. -/
inductive CliOutcome where
  | usage
  | openFail
  | run
deriving DecidableEq

/-- CLI behaviour of `main` (`src/main.c` lines 33–45), parametrised by the
argument vector (including `argv[0]`) and the result of `open`: a missing
device argument prints usage and exits `0`; a failed open reports the device
and exits `1`; otherwise the session runs (and `main` returns `0` at
line 88). -/
def cliMain (argv : List String) (openRes : Int) : Int × CliOutcome × List String :=
  if argv.length < 2 then
    (0, .usage, ["No serial port indicated"])
  else if openRes < 0 then
    (1, .openFail, ["Failed to open modem device: " ++ argv.getD 1 ""])
  else
    (0, .run, [])

/-- Every character is a decimal digit. -/
def allDigits (ds : List Char) : Bool := ds.all isDigitC

/-- The list is empty or does not begin with a digit (so a digit run ends
exactly at its boundary). -/
def noDigitHead : List Char → Bool
  | [] => true
  | c :: _ => !isDigitC c

/-- The list is empty or begins with neither a digit nor a point (so a
float token ends exactly at its boundary). -/
def noDotDigitHead : List Char → Bool
  | [] => true
  | c :: _ => !isDigitC c && !(c = '.')

/-- `s` is a `%d` token converting to the integer `v`: an optional sign
followed by at least one digit. -/
def intTok (s : List Char) (v : Int) : Prop :=
  ∃ ds, allDigits ds = true ∧ ds ≠ [] ∧
    ((s = ds ∧ v = (natOfDigits ds : Int)) ∨
     (s = '+' :: ds ∧ v = (natOfDigits ds : Int)) ∨
     (s = '-' :: ds ∧ v = -(natOfDigits ds : Int)))

/-- `body` is an unsigned decimal float token with mantissa `m` and `k`
fraction digits: `digits`, `digits.digits`, `digits.` or `.digits`. -/
def uFloatTok (body : List Char) (m k : Nat) : Prop :=
  (∃ ip, allDigits ip = true ∧ ip ≠ [] ∧ body = ip ∧
    m = natOfDigits ip ∧ k = 0) ∨
  (∃ ip fp, allDigits ip = true ∧ allDigits fp = true ∧
    (ip ≠ [] ∨ fp ≠ []) ∧ body = ip ++ '.' :: fp ∧
    m = natOfDigits (ip ++ fp) ∧ k = fp.length)

/-- `s` is a signed `%f` token denoting the parsed decimal `d`. -/
def floatTok (s : List Char) (d : DecFloat) : Prop :=
  ∃ body, uFloatTok body d.mant d.fdigits ∧
    ((d.neg = false ∧ s = body) ∨
     (d.neg = false ∧ s = '+' :: body) ∨
     (d.neg = true ∧ s = '-' :: body))

/-- A line in the quaternion wire format with the four field tokens. -/
def quatLine (tw tx ty tz : List Char) : List Char :=
  'w' :: ' ' :: '=' :: ' ' ::
    (tw ++ ' ' :: 'x' :: ' ' :: '=' :: ' ' ::
      (tx ++ ' ' :: 'y' :: ' ' :: '=' :: ' ' ::
        (ty ++ ' ' :: 'z' :: ' ' :: '=' :: ' ' :: tz)))

/-- A line in the legacy angle-pair wire format with the two field tokens
and the tab-pair separator of the sscanf format string. -/
def angLine (sx sy : List Char) : List Char :=
  'A' :: 'n' :: 'g' :: '.' :: 'x' :: ' ' :: '=' :: ' ' ::
    (sx ++ '\t' :: '\t' ::
      'A' :: 'n' :: 'g' :: '.' :: 'y' :: ' ' :: '=' :: ' ' :: sy)

noncomputable section

/-- raylib `DEG2RAD`, idealised over `ℝ`. -/
def DEG2RAD : ℝ := Real.pi / 180

/-- raylib `RAD2DEG`, idealised over `ℝ`. -/
def RAD2DEG : ℝ := 180 / Real.pi

/-- raylib `Vector3Length`. -/
def v3len (v : ℝ × ℝ × ℝ) : ℝ :=
  Real.sqrt (v.1 ^ 2 + v.2.1 ^ 2 + v.2.2 ^ 2)

/-- raylib `Vector3Normalize`: scale by the reciprocal length, with the zero
vector left unchanged. -/
def v3norm (v : ℝ × ℝ × ℝ) : ℝ × ℝ × ℝ :=
  if v3len v = 0 then v else (v.1 / v3len v, v.2.1 / v3len v, v.2.2 / v3len v)

/-- Scale a vector. -/
def v3scale (c : ℝ) (v : ℝ × ℝ × ℝ) : ℝ × ℝ × ℝ :=
  (c * v.1, c * v.2.1, c * v.2.2)

/-- The pose computed each tick by `render_thread` (`src/main.c`
lines 123–136) from a snapshot `(ox, oy)` of the orientation cell
(degrees): the normalized rotation axis and the rotation angle in degrees
handed to `DrawModelWiresEx`. -/
def renderPose (ox oy : ℚ) : (ℝ × ℝ × ℝ) × ℝ :=
  let xAng : ℝ := DEG2RAD * (ox : ℝ)
  let yAng : ℝ := DEG2RAD * (oy : ℝ)
  let axis0 : ℝ × ℝ × ℝ := (-xAng, 0, yAng)
  (v3norm axis0, RAD2DEG * v3len axis0)

/-- The rotation vector (unit axis times angle in radians) §4.4 prescribes
for an angle-pair sample: each tilt angle converted from degrees to radians
and placed on its tilt component. -/
def specRotVec (ox oy : ℚ) : ℝ × ℝ × ℝ :=
  (-(DEG2RAD * (ox : ℝ)), 0, DEG2RAD * (oy : ℝ))

end

end ImuVis

namespace ImuVis

theorem isDigitC_facts {c : Char} (h : isDigitC c = true) :
    isSpaceC c = false ∧ c ≠ '-' ∧ c ≠ '+' ∧ c ≠ '.' := by
  refine ⟨?_, ?_, ?_, ?_⟩
  · cases hs : isSpaceC c with
    | false => rfl
    | true =>
      simp [isSpaceC] at hs
      rcases hs with ((((h1 | h1) | h1) | h1) | h1) | h1 <;> subst h1 <;> exact absurd h (by decide)
  · intro he; subst he; exact absurd h (by decide)
  · intro he; subst he; exact absurd h (by decide)
  · intro he; subst he; exact absurd h (by decide)

theorem skipWs_cons (c : Char) (s : List Char) :
    skipWs (c :: s) = if isSpaceC c then skipWs s else c :: s := rfl

theorem allDigits_cons {c : Char} {cs : List Char} (h : allDigits (c :: cs) = true) :
    isDigitC c = true ∧ allDigits cs = true := by
  simpa [allDigits] using h

theorem takeDigits_append {ds rest : List Char} (h1 : allDigits ds = true)
    (h2 : noDigitHead rest = true) : takeDigits (ds ++ rest) = (ds, rest) := by
  induction ds with
  | nil =>
    cases rest with
    | nil => rfl
    | cons c cs =>
      have hd : isDigitC c = false := by
        cases hd : isDigitC c
        · rfl
        · simp [noDigitHead, hd] at h2
      simp [takeDigits, hd]
  | cons c cs ih =>
    obtain ⟨hc, hcs⟩ := allDigits_cons h1
    simp [takeDigits, hc, ih hcs]

end ImuVis

namespace ImuVis

theorem scanInt_cons {c : Char} (s : List Char) (hc : isSpaceC c = false) :
    scanInt (c :: s) =
      (if c = '-' then
        match takeDigits s with
        | (ds, r) => if ds.isEmpty then none else some (-(natOfDigits ds : Int), r)
      else if c = '+' then
        match takeDigits s with
        | (ds, r) => if ds.isEmpty then none else some ((natOfDigits ds : Int), r)
      else
        match takeDigits (c :: s) with
        | (ds, r) => if ds.isEmpty then none else some ((natOfDigits ds : Int), r)) := by
  rw [scanInt, skipWs_cons, if_neg (by simp [hc])]

theorem scanInt_append (s rest : List Char) (v : Int) (h : intTok s v)
    (hr : noDigitHead rest = true) : scanInt (s ++ rest) = some (v, rest) := by
  obtain ⟨ds, hall, hne, hcase⟩ := h
  obtain ⟨d, ds', rfl⟩ : ∃ d ds', ds = d :: ds' := by
    cases ds with
    | nil => exact absurd rfl hne
    | cons a b => exact ⟨a, b, rfl⟩
  obtain ⟨hd, hds'⟩ := allDigits_cons hall
  obtain ⟨hsp, hm, hp, _⟩ := isDigitC_facts hd
  have htk : takeDigits ((d :: ds') ++ rest) = (d :: ds', rest) :=
    takeDigits_append hall hr
  rcases hcase with ⟨rfl, rfl⟩ | ⟨rfl, rfl⟩ | ⟨rfl, rfl⟩
  · show scanInt ((d :: ds') ++ rest) = _
    rw [List.cons_append, scanInt_cons _ hsp, if_neg hm, if_neg hp,
      ← List.cons_append, htk]
    simp
  · show scanInt (('+' :: (d :: ds')) ++ rest) = _
    rw [List.cons_append, scanInt_cons _ (by decide), if_neg (by decide),
      if_pos rfl, htk]
    simp
  · show scanInt (('-' :: (d :: ds')) ++ rest) = _
    rw [List.cons_append, scanInt_cons _ (by decide), if_pos rfl, htk]
    simp

end ImuVis

namespace ImuVis

theorem noDot_noDigit {s : List Char} (h : noDotDigitHead s = true) :
    noDigitHead s = true := by
  cases s with
  | nil => rfl
  | cons c t =>
    simp [noDotDigitHead] at h
    simp [noDigitHead, h.1]

theorem scanUFloat_eq (s : List Char) :
    scanUFloat s =
      (match takeDigits s with
      | (ip, r) =>
        match r with
        | [] => if ip.isEmpty then none else some ((natOfDigits ip, 0), [])
        | c :: r2 =>
          if c = '.' then
            match takeDigits r2 with
            | (fp, r3) =>
              if ip.isEmpty && fp.isEmpty then none
              else some ((natOfDigits (ip ++ fp), fp.length), r3)
          else if ip.isEmpty then none
          else some ((natOfDigits ip, 0), c :: r2)) := rfl

theorem scanUFloat_body {body rest : List Char} {m k : Nat}
    (h : uFloatTok body m k) (hr : noDotDigitHead rest = true) :
    scanUFloat (body ++ rest) = some ((m, k), rest) := by
  rcases h with ⟨ip, hall, hne, rfl, rfl, rfl⟩ |
    ⟨ip, fp, hallip, hallfp, hne, rfl, rfl, rfl⟩
  · rw [scanUFloat_eq, takeDigits_append hall (noDot_noDigit hr)]
    have hie : body.isEmpty = false := by
      cases body with
      | nil => exact absurd rfl hne
      | cons a b => rfl
    cases rest with
    | nil => simp [hie]
    | cons c t =>
      simp [noDotDigitHead] at hr
      simp [hie, hr.2]
  · have hassoc : (ip ++ '.' :: fp) ++ rest = ip ++ ('.' :: (fp ++ rest)) := by
      simp
    have hdot : noDigitHead ('.' :: (fp ++ rest)) = true := rfl
    have hie : (ip.isEmpty && fp.isEmpty) = false := by
      rcases hne with hne | hne
      · cases ip with
        | nil => exact absurd rfl hne
        | cons a b => rfl
      · cases fp with
        | nil => exact absurd rfl hne
        | cons a b => simp
    rw [hassoc, scanUFloat_eq, takeDigits_append hallip hdot]
    simp [takeDigits_append hallfp (noDot_noDigit hr), hie]

theorem scanFloat_cons {c : Char} (s : List Char) (hc : isSpaceC c = false) :
    scanFloat (c :: s) =
      (if c = '-' then (scanUFloat s).map (fun p => (⟨true, p.1.1, p.1.2⟩, p.2))
      else if c = '+' then (scanUFloat s).map (fun p => (⟨false, p.1.1, p.1.2⟩, p.2))
      else (scanUFloat (c :: s)).map (fun p => (⟨false, p.1.1, p.1.2⟩, p.2))) := by
  rw [scanFloat, skipWs_cons, if_neg (by simp [hc])]

theorem uFloatTok_head {body : List Char} {m k : Nat} (h : uFloatTok body m k) :
    ∃ c t, body = c :: t ∧ isSpaceC c = false ∧ c ≠ '-' ∧ c ≠ '+' := by
  rcases h with ⟨ip, hall, hne, rfl, _, _⟩ |
    ⟨ip, fp, hallip, hallfp, hne, rfl, _, _⟩
  · obtain ⟨d, t, rfl⟩ : ∃ d t, body = d :: t := by
      cases body with
      | nil => exact absurd rfl hne
      | cons a b => exact ⟨a, b, rfl⟩
    obtain ⟨h1, h2, h3, _⟩ := isDigitC_facts (allDigits_cons hall).1
    exact ⟨d, t, rfl, h1, h2, h3⟩
  · cases ip with
    | nil => exact ⟨'.', fp, rfl, by decide, by decide, by decide⟩
    | cons d t =>
      obtain ⟨h1, h2, h3, _⟩ := isDigitC_facts (allDigits_cons hallip).1
      exact ⟨d, t ++ '.' :: fp, rfl, h1, h2, h3⟩

theorem scanFloat_append (s rest : List Char) (d : DecFloat)
    (h : floatTok s d) (hr : noDotDigitHead rest = true) :
    scanFloat (s ++ rest) = some (d, rest) := by
  obtain ⟨neg, m, k⟩ := d
  obtain ⟨body, hb, hcase⟩ := h
  obtain ⟨c, t, rfl, hcsp, hcm, hcp⟩ := uFloatTok_head hb
  have hu := scanUFloat_body hb hr
  rcases hcase with ⟨hneg, rfl⟩ | ⟨hneg, rfl⟩ | ⟨hneg, rfl⟩ <;>
    simp only at hneg <;> subst hneg
  · show scanFloat ((c :: t) ++ rest) = _
    rw [List.cons_append, scanFloat_cons _ hcsp, if_neg hcm, if_neg hcp,
      ← List.cons_append, hu]
    rfl
  · show scanFloat (('+' :: (c :: t)) ++ rest) = _
    rw [List.cons_append, scanFloat_cons _ (by decide), if_neg (by decide),
      if_pos rfl, hu]
    rfl
  · show scanFloat (('-' :: (c :: t)) ++ rest) = _
    rw [List.cons_append, scanFloat_cons _ (by decide), if_pos rfl, hu]
    rfl

theorem scanInt_ws {c : Char} (s : List Char) (hc : isSpaceC c = true) :
    scanInt (c :: s) = scanInt s := by
  unfold scanInt
  rw [skipWs_cons, if_pos (by simp [hc])]

theorem scanFloat_ws {c : Char} (s : List Char) (hc : isSpaceC c = true) :
    scanFloat (c :: s) = scanFloat s := by
  unfold scanFloat
  rw [skipWs_cons, if_pos (by simp [hc])]

end ImuVis

namespace ImuVis

theorem legacyScan_angLine {sx sy : List Char} {i j : Int}
    (hx : intTok sx i) (hy : intTok sy j) :
    legacyScan (angLine sx sy) = some (i, j) := by
  have hsx := scanInt_append sx
    ('\t' :: '\t' :: 'A' :: 'n' :: 'g' :: '.' :: 'y' :: ' ' :: '=' :: ' ' :: sy)
    i hx rfl
  have hsy : scanInt sy = some (j, []) := by
    have h := scanInt_append sy [] j hy rfl
    rwa [List.append_nil] at h
  simp [legacyScan, angLine, litStr, lit, skipWs_cons, isSpaceC, scanInt_ws,
    hsx, hsy]

theorem quatScan_quatLine {tw tx ty tz : List Char} {dw dx dy dz : DecFloat}
    (hw : floatTok tw dw) (hx : floatTok tx dx) (hy : floatTok ty dy)
    (hz : floatTok tz dz) :
    quatScan (quatLine tw tx ty tz) = some (dw, dx, dy, dz) := by
  have h1 := scanFloat_append tw
    (' ' :: 'x' :: ' ' :: '=' :: ' ' ::
      (tx ++ ' ' :: 'y' :: ' ' :: '=' :: ' ' ::
        (ty ++ ' ' :: 'z' :: ' ' :: '=' :: ' ' :: tz))) dw hw rfl
  have h2 := scanFloat_append tx
    (' ' :: 'y' :: ' ' :: '=' :: ' ' ::
      (ty ++ ' ' :: 'z' :: ' ' :: '=' :: ' ' :: tz)) dx hx rfl
  have h3 := scanFloat_append ty (' ' :: 'z' :: ' ' :: '=' :: ' ' :: tz) dy hy rfl
  have h4 : scanFloat tz = some (dz, []) := by
    have h := scanFloat_append tz [] dz hz rfl
    rwa [List.append_nil] at h
  simp [quatScan, quatLine, matchField, lit, skipWs_cons, isSpaceC, scanFloat_ws,
    h1, h2, h3, h4]

end ImuVis

namespace ImuVis

theorem modemStep_nil (st : ℚ × ℚ) : modemStep [] st = st := rfl

theorem modemStep_eq_of_scan {l : List Char} {st : ℚ × ℚ}
    (h : legacyScan l = none) : modemStep l st = st := by
  unfold modemStep
  rw [h]

theorem modemLoop_cons (flag : Nat → Bool) (l : List Char)
    (rest : List (List Char)) (i : Nat) (st : ℚ × ℚ) :
    modemLoop flag (l :: rest) i st =
      if flag i then (st, 0)
      else ((modemLoop flag rest (i + 1) (modemStep l st)).1,
        (modemLoop flag rest (i + 1) (modemStep l st)).2 + 1) := rfl

theorem modemLoop_no_publish {reads : List (List Char)} (flag : Nat → Bool)
    (h : ∀ l ∈ reads, legacyScan l = none) :
    ∀ (i : Nat) (st : ℚ × ℚ), (modemLoop flag reads i st).1 = st := by
  induction reads with
  | nil => intro i st; rfl
  | cons l rest ih =>
    intro i st
    rw [modemLoop_cons]
    by_cases hf : flag i
    · rw [if_pos hf]
    · rw [if_neg hf]
      rw [modemStep_eq_of_scan (h l (List.mem_cons_self l rest))]
      exact ih (fun x hx => h x (List.mem_cons_of_mem l hx)) (i + 1) st

theorem modemLoop_stop {k : Nat} {flag : Nat → Bool}
    (hf : ∀ n, flag n = decide (k ≤ n)) :
    ∀ (reads : List (List Char)) (i : Nat) (st : ℚ × ℚ),
      modemLoop flag reads i st =
        ((reads.take (k - i)).foldl (fun a l => modemStep l a) st,
          min (k - i) reads.length) := by
  intro reads
  induction reads with
  | nil => intro i st; simp [modemLoop]
  | cons l rest ih =>
    intro i st
    rw [modemLoop_cons]
    by_cases hk : k ≤ i
    · rw [if_pos (by rw [hf]; exact decide_eq_true hk)]
      have h0 : k - i = 0 := Nat.sub_eq_zero_of_le hk
      simp [h0]
    · rw [if_neg (by rw [hf]; simp [hk])]
      rw [ih (i + 1)]
      have h1 : k - i = (k - (i + 1)) + 1 := by omega
      rw [h1]
      simp [Nat.succ_min_succ]

end ImuVis

namespace ImuVis

/-- Claim C1: every input line in the quaternion pattern whose four fields
are parseable finite decimals decodes successfully to the quaternion
`Orientation` carrying exactly the parsed field values, and the quaternion
format takes priority: whenever the quaternion scan succeeds, its result is
the result of the decoder regardless of the legacy format. -/
theorem c1_quaternion_decode {tw tx ty tz : List Char} {dw dx dy dz : DecFloat}
    (hw : floatTok tw dw) (hx : floatTok tx dx) (hy : floatTok ty dy)
    (hz : floatTok tz dz) :
    decode (quatLine tw tx ty tz) = some (.quat dw dx dy dz) ∧
    (∀ s w x y z, quatScan s = some (w, x, y, z) →
      decode s = some (.quat w x y z)) := by
  constructor
  · unfold decode
    rw [quatScan_quatLine hw hx hy hz]
  · intro s w x y z hq
    unfold decode
    rw [hq]

/-- Witness for C1 at the scenario A line `w = 1.0 x = 0.0 y = 0.0 z = 0.0`. -/
theorem c1_quaternion_decode_witness :
    decode (quatLine ['1', '.', '0'] ['0', '.', '0'] ['0', '.', '0'] ['0', '.', '0']) =
      some (.quat ⟨false, 10, 1⟩ ⟨false, 0, 1⟩ ⟨false, 0, 1⟩ ⟨false, 0, 1⟩) ∧
    (∀ s w x y z, quatScan s = some (w, x, y, z) →
      decode s = some (.quat w x y z)) :=
  c1_quaternion_decode
    ⟨['1', '.', '0'],
      Or.inr ⟨['1'], ['0'], rfl, rfl, Or.inl (by decide), rfl, rfl, rfl⟩,
      Or.inl ⟨rfl, rfl⟩⟩
    ⟨['0', '.', '0'],
      Or.inr ⟨['0'], ['0'], rfl, rfl, Or.inl (by decide), rfl, rfl, rfl⟩,
      Or.inl ⟨rfl, rfl⟩⟩
    ⟨['0', '.', '0'],
      Or.inr ⟨['0'], ['0'], rfl, rfl, Or.inl (by decide), rfl, rfl, rfl⟩,
      Or.inl ⟨rfl, rfl⟩⟩
    ⟨['0', '.', '0'],
      Or.inr ⟨['0'], ['0'], rfl, rfl, Or.inl (by decide), rfl, rfl, rfl⟩,
      Or.inl ⟨rfl, rfl⟩⟩

/-- Claim C3: on a line where neither wire format fully matches, the decode
attempt fails, no partial `Orientation` is produced, and the iteration
leaves the shared orientation cell exactly as it was. -/
theorem c3_malformed_drop (line : List Char) (st : ℚ × ℚ)
    (hq : quatScan line = none) (hl : legacyScan line = none) :
    decode line = none ∧ modemStep line st = st := by
  refine ⟨?_, modemStep_eq_of_scan hl⟩
  unfold decode
  rw [hq, hl]

/-- Witness for C3 at the line `garbage`. -/
theorem c3_malformed_drop_witness :
    decode ['g', 'a', 'r', 'b', 'a', 'g', 'e'] = none ∧
    modemStep ['g', 'a', 'r', 'b', 'a', 'g', 'e'] ((0 : ℚ), (0 : ℚ)) =
      ((0 : ℚ), (0 : ℚ)) :=
  c3_malformed_drop _ _ (by decide) (by decide)

/-- Counterexample to claim C4: a zero-length read (EOF) is not terminal in
`modem_thread` — after reading zero bytes the loop runs another iteration,
consuming a second read and even publishing from it, instead of exiting. -/
theorem c4_eof_not_terminal :
    (modemLoop (fun _ => false) [[], angLine ['5'] ['7']] 0 orientationInit).2
      = 2 ∧
    (modemLoop (fun _ => false) [[], angLine ['5'] ['7']] 0 orientationInit).1
      = (((5 : Int) : ℚ), ((7 : Int) : ℚ)) := by decide

/-- Claim C4 as amended: a zero-length read does not crash the loop — the
NUL store lands in bounds at index 0, the empty line decodes to a failure
and publishes nothing — but it is not terminal either: the loop proceeds to
the next iteration, and exits only once the stop flag is observed. -/
theorem c4_eof_read_continues (flag : Nat → Bool) (reads : List (List Char))
    (i : Nat) (st : ℚ × ℚ) (h : flag i = false) :
    nulWriteInBounds 0 ∧ modemStep [] st = st ∧
    modemLoop flag ([] :: reads) i st =
      ((modemLoop flag reads (i + 1) st).1,
        (modemLoop flag reads (i + 1) st).2 + 1) := by
  refine ⟨⟨by norm_num, by norm_num [modemBuflen]⟩, modemStep_nil st, ?_⟩
  rw [modemLoop_cons, if_neg (by simp [h]), modemStep_nil]

/-- Witness for the amended C4. -/
theorem c4_eof_read_continues_witness :
    nulWriteInBounds 0 ∧ modemStep [] ((1 : ℚ), (2 : ℚ)) = ((1 : ℚ), (2 : ℚ)) ∧
    modemLoop (fun _ => false) [[]] 0 ((1 : ℚ), (2 : ℚ)) =
      ((modemLoop (fun _ => false) [] 1 ((1 : ℚ), (2 : ℚ))).1,
        (modemLoop (fun _ => false) [] 1 ((1 : ℚ), (2 : ℚ))).2 + 1) :=
  c4_eof_read_continues (fun _ => false) [] 0 ((1 : ℚ), (2 : ℚ)) rfl

/-- Claim C5: every line in the legacy angle-pair pattern with two integer
tokens decodes to the pair, and the iteration publishes exactly the float
casts of the two parsed integers. -/
theorem c5_legacy_decode {sx sy : List Char} {i j : Int} (st : ℚ × ℚ)
    (hx : intTok sx i) (hy : intTok sy j) :
    legacyScan (angLine sx sy) = some (i, j) ∧
    modemStep (angLine sx sy) st = ((i : ℚ), (j : ℚ)) := by
  have h := legacyScan_angLine hx hy
  refine ⟨h, ?_⟩
  unfold modemStep
  rw [h]

/-- Witness for C5 at the scenario B line `Ang.x = 30		Ang.y = -15`. -/
theorem c5_legacy_decode_witness :
    legacyScan (angLine ['3', '0'] ['-', '1', '5']) = some (30, -15) ∧
    modemStep (angLine ['3', '0'] ['-', '1', '5']) ((0 : ℚ), (0 : ℚ)) =
      (((30 : Int) : ℚ), (((-15) : Int) : ℚ)) :=
  c5_legacy_decode ((0 : ℚ), (0 : ℚ))
    ⟨['3', '0'], rfl, by decide, Or.inl ⟨rfl, by decide⟩⟩
    ⟨['1', '5'], rfl, by decide, Or.inr (Or.inr ⟨rfl, by decide⟩)⟩

/-- Claim C6: the shared cell is initialised to the defined zero
orientation, and as long as no line has decoded successfully every snapshot
of the cell yields that zero value, never an undefined one. -/
theorem c6_initial_snapshot (reads : List (List Char))
    (h : ∀ l ∈ reads, legacyScan l = none) :
    orientationInit = ((0 : ℚ), (0 : ℚ)) ∧
    (modemLoop (fun _ => false) reads 0 orientationInit).1 = orientationInit :=
  ⟨rfl, modemLoop_no_publish _ h 0 orientationInit⟩

/-- Witness for C6 on a stream of two undecodable reads. -/
theorem c6_initial_snapshot_witness :
    orientationInit = ((0 : ℚ), (0 : ℚ)) ∧
    (modemLoop (fun _ => false) [['g', 'a', 'r', 'b', 'a', 'g', 'e'], []] 0
      orientationInit).1 = orientationInit :=
  c6_initial_snapshot [['g', 'a', 'r', 'b', 'a', 'g', 'e'], []] (by decide)

/-- Counterexample to claim C7: `res = 1024` (a full-buffer read) and
`res = -1` (a read error) are possible results of the `read` call, yet the
NUL store `buf[res] = 0` is out of bounds for both. -/
theorem c7_nul_write_oob :
    readResultPossible 1024 ∧ ¬ nulWriteInBounds 1024 ∧
    readResultPossible (-1) ∧ ¬ nulWriteInBounds (-1) := by decide

/-- Claim C7 as amended: among the possible read results, the NUL store is
in bounds exactly for `0 ≤ res ≤ 1023`; the extreme results `res = 1024`
and `res = -1` make it an out-of-bounds store. -/
theorem c7_nul_write_bounds (res : Int) (h : readResultPossible res) :
    nulWriteInBounds res ↔ 0 ≤ res ∧ res ≤ 1023 := by
  unfold nulWriteInBounds readResultPossible modemBuflen at *
  omega

/-- Witness for the amended C7 at `res = 5`. -/
theorem c7_nul_write_bounds_witness :
    nulWriteInBounds 5 ↔ 0 ≤ (5 : Int) ∧ (5 : Int) ≤ 1023 :=
  c7_nul_write_bounds 5 (by decide)

/-- Claim C9: `main` sets the stop flag before joining the modem thread,
and the ingestion loop samples the flag at each iteration head — with the
flag set from iteration `k` on, the result of the loop is exactly the fold of
the first `k` reads, it consumes `min k len` reads, performs no further
decode or publish step, and returns (so the join completes). -/
theorem c9_stopflag_then_join (k : Nat) (flag : Nat → Bool)
    (reads : List (List Char)) (hf : ∀ n, flag n = decide (k ≤ n)) :
    List.indexOf MainAction.setStopFlag mainShutdownSeq <
      List.indexOf MainAction.joinModem mainShutdownSeq ∧
    modemLoop flag reads 0 orientationInit =
      ((reads.take k).foldl (fun a l => modemStep l a) orientationInit,
        min k reads.length) := by
  refine ⟨by decide, ?_⟩
  have h := modemLoop_stop hf reads 0 orientationInit
  simpa using h

/-- Witness for C9: flag set from iteration 1 on, two pending reads, only
the first is decoded. -/
theorem c9_stopflag_then_join_witness :
    List.indexOf MainAction.setStopFlag mainShutdownSeq <
      List.indexOf MainAction.joinModem mainShutdownSeq ∧
    modemLoop (fun n => decide (1 ≤ n))
        [angLine ['5'] ['7'], angLine ['8'] ['9']] 0 orientationInit =
      (([angLine ['5'] ['7'], angLine ['8'] ['9']].take 1).foldl
          (fun a l => modemStep l a) orientationInit,
        min 1 [angLine ['5'] ['7'], angLine ['8'] ['9']].length) :=
  c9_stopflag_then_join 1 (fun n => decide (1 ≤ n))
    [angLine ['5'] ['7'], angLine ['8'] ['9']] (fun _ => rfl)

/-- Claim C10: with no positional argument `main` prints the usage message
and exits 0; when the named device fails to open it reports the failure and
exits 1. -/
theorem c10_cli (argv : List String) (openRes : Int) :
    (argv.length < 2 →
      cliMain argv openRes = (0, .usage, ["No serial port indicated"])) ∧
    (2 ≤ argv.length → openRes < 0 →
      cliMain argv openRes =
        (1, .openFail, ["Failed to open modem device: " ++ argv.getD 1 ""])) := by
  constructor
  · intro h
    unfold cliMain
    rw [if_pos h]
  · intro h1 h2
    unfold cliMain
    rw [if_neg (by omega), if_pos h2]

/-- Witness for C10: no argument, and a failing open of `/dev/ttyUSB0`. -/
theorem c10_cli_witness :
    cliMain ["imu"] 0 = (0, .usage, ["No serial port indicated"]) ∧
    cliMain ["imu", "/dev/ttyUSB0"] (-1) =
      (1, .openFail,
        ["Failed to open modem device: " ++ ["imu", "/dev/ttyUSB0"].getD 1 ""]) :=
  ⟨(c10_cli ["imu"] 0).1 (by decide),
    (c10_cli ["imu", "/dev/ttyUSB0"] (-1)).2 (by decide) (by decide)⟩

/-- Claim C2 refuted on the code: the unsynchronized two-field store admits
a legal interleaving of `publish (1,2); publish (3,4)` with one snapshot in
which the snapshot loads `(3, 2)` — the `x` of the second publication with
the `y` of the first — a value that is neither the initial value nor either
published pair. -/
theorem c2_torn_read_exhibited :
    interleaving (publishSteps (1, 2) ++ publishSteps (3, 4)) snapshotSteps
      tornSchedule = true ∧
    (cellRun tornSchedule).2 = [(3 : ℚ), (2 : ℚ)] ∧
    ((3 : ℚ), (2 : ℚ)) ∉ ([orientationInit, (1, 2), (3, 4)] : List (ℚ × ℚ)) := by
  decide

end ImuVis

namespace ImuVis

/-- Claim C8: each tick, the render loop converts both tilt angles of the
snapshot from degrees to radians and builds the axis-angle pose from the
two tilt components: scaling the unit axis it hands the renderer by its
angle (converted back to radians) recovers exactly the rotation vector of §4.4;
in particular this holds for the pair (30, -15). -/
theorem c8_render_axis_angle (ox oy : ℚ) (h : ¬(ox = 0 ∧ oy = 0)) :
    v3scale (DEG2RAD * (renderPose ox oy).2) (renderPose ox oy).1 =
      specRotVec ox oy := by
  have hπ : Real.pi ≠ 0 := Real.pi_ne_zero
  have hD : DEG2RAD ≠ 0 := by
    unfold DEG2RAD
    exact div_ne_zero hπ (by norm_num)
  set xA : ℝ := DEG2RAD * (ox : ℝ) with hxA
  set yA : ℝ := DEG2RAD * (oy : ℝ) with hyA
  have hsum : 0 < (-xA) ^ 2 + (0 : ℝ) ^ 2 + yA ^ 2 := by
    rcases not_and_or.mp h with hx | hy
    · have hxa : xA ≠ 0 := mul_ne_zero hD (by exact_mod_cast hx)
      have h1 : 0 < xA ^ 2 := pow_two_pos_of_ne_zero hxa
      nlinarith [sq_nonneg yA]
    · have hya : yA ≠ 0 := mul_ne_zero hD (by exact_mod_cast hy)
      have h1 : 0 < yA ^ 2 := pow_two_pos_of_ne_zero hya
      nlinarith [sq_nonneg xA]
  have hlen : v3len (-xA, 0, yA) = Real.sqrt ((-xA) ^ 2 + 0 ^ 2 + yA ^ 2) := rfl
  have hLpos : 0 < v3len (-xA, 0, yA) := by
    rw [hlen]
    exact Real.sqrt_pos.mpr hsum
  have hLne : v3len (-xA, 0, yA) ≠ 0 := ne_of_gt hLpos
  have hpose : renderPose ox oy =
      (v3norm (-xA, 0, yA), RAD2DEG * v3len (-xA, 0, yA)) := rfl
  rw [hpose]
  have hcancel : DEG2RAD * (RAD2DEG * v3len (-xA, 0, yA)) =
      v3len (-xA, 0, yA) := by
    unfold DEG2RAD RAD2DEG
    field_simp
    ring
  show v3scale (DEG2RAD * (RAD2DEG * v3len (-xA, 0, yA)))
      (v3norm (-xA, 0, yA)) = _
  rw [hcancel, v3norm, if_neg hLne]
  unfold v3scale specRotVec
  simp only [Prod.mk.injEq]
  refine ⟨?_, ?_, ?_⟩
  · rw [← hxA]
    field_simp
    ring
  · simp
  · rw [← hyA]
    field_simp

/-- Witness for C8 at the pair (30, -15) of scenario B. -/
theorem c8_render_axis_angle_witness :
    v3scale (DEG2RAD * (renderPose 30 (-15)).2) (renderPose 30 (-15)).1 =
      specRotVec 30 (-15) :=
  c8_render_axis_angle 30 (-15) (by decide)

end ImuVis
